import Mathlib

/-!
Verification development for the haxfootball-board scene/camera/interaction
core. The definitions below are a shallow embedding of the TypeScript source
(src/unnamed/part_000): coordinates are rationals (modelling exactly the
finite IEEE doubles the program manipulates, with exact arithmetic), JS
arrays are lists, JS objects are records, and the React state cell holding
the element sequence together with the undo history ref is an explicit
state record that the event handlers transform.
-/

namespace HaxBoard

/-- A 2D point with rational coordinates, as the source's plain
x/y object literals. -/
@[ext]
structure Point where
  x : ℚ
  y : ℚ
  deriving DecidableEq

/-- Team color of a player token (source type TeamColor). -/
inductive TeamColor
  | red
  | blue
  deriving DecidableEq

/-- Canonical stroke color of an arrow (source type ArrowColor). -/
inductive ArrowColor
  | redLine
  | blueLine
  | yellow
  deriving DecidableEq

/-- Player element (source type PlayerEl). The optional avatar and name
mirror the optional string fields. -/
structure PlayerEl where
  id : String
  x : ℚ
  y : ℚ
  color : TeamColor
  avatar : Option String
  name : Option String
  deriving DecidableEq

/-- Ball element (source type BallEl). -/
structure BallEl where
  id : String
  x : ℚ
  y : ℚ
  deriving DecidableEq

/-- Straight arrow element (source type ArrowStraightEl). -/
structure ArrowStraightEl where
  id : String
  x1 : ℚ
  y1 : ℚ
  x2 : ℚ
  y2 : ℚ
  color : ArrowColor
  dashed : Bool
  deriving DecidableEq

/-- Curved arrow element (source type ArrowCurveEl). -/
structure ArrowCurveEl where
  id : String
  points : List Point
  color : ArrowColor
  dashed : Bool
  deriving DecidableEq

/-- A board element, discriminated by kind (source union El). -/
inductive El
  | player (p : PlayerEl)
  | ball (b : BallEl)
  | arrowStraight (a : ArrowStraightEl)
  | arrowCurve (c : ArrowCurveEl)
  deriving DecidableEq

/-- The id of an element, as read by the id-targeted mutators. -/
def El.eid : El → String
  | .player p => p.id
  | .ball b => b.id
  | .arrowStraight a => a.id
  | .arrowCurve c => c.id

/-- Camera: screen-pixel offset plus uniform scale (source type Camera). -/
structure Camera where
  x : ℚ
  y : ℚ
  scale : ℚ
  deriving DecidableEq

/-- Viewport size in pixels (the vp state of the component). -/
structure Viewport where
  w : ℚ
  h : ℚ
  deriving DecidableEq

/-- Source constant CURVE_POINT_EPSILON = 0.75. -/
def CURVE_POINT_EPSILON : ℚ := 3 / 4

/-- Source constant HISTORY_LIMIT = 50. -/
def HISTORY_LIMIT : ℕ := 50

/-- Source constant CURVE_MIN_DRAW_GAP = 5. -/
def CURVE_MIN_DRAW_GAP : ℚ := 5

/-- Source utility: clamp v into the interval from a to b,
written Math.min(b, Math.max(a, v)). -/
def clamp (v a b : ℚ) : ℚ := min b (max a v)

/-- Squared Euclidean distance between two points. The source compares
Math.hypot(dx, dy) with a nonnegative epsilon; over the rationals that
comparison is expressed equivalently on squares, since both sides are
nonnegative wherever the source evaluates it. -/
def dist2 (p q : Point) : ℚ := (p.x - q.x) ^ 2 + (p.y - q.y) ^ 2

/-- The source test Math.hypot(pt.x - prev.x, pt.y - prev.y) > epsilon,
expressed on squared distances. -/
def farApart (prev pt : Point) (epsilon : ℚ) : Bool :=
  decide (epsilon ^ 2 < dist2 pt prev)

/-- The loop body of prunePoints. The accumulator holds the kept points in
reverse order, so its head is the last kept point (result[result.length-1]
in the source): a far-enough point is pushed, otherwise it overwrites the
head (drag-to-latest). The source copies point objects; copying is the
identity on immutable values. -/
def pruneStep (epsilon : ℚ) (acc : List Point) (pt : Point) : List Point :=
  match acc with
  | [] => [pt]
  | prev :: accTl =>
    if farApart prev pt epsilon then pt :: prev :: accTl else pt :: accTl

/-- Source function prunePoints (the spec's simplifyPolyline): one
left-to-right pass keeping points farther than epsilon from the last kept
point, then a fallback to the first two raw points when fewer than two
points survive. -/
def prunePoints (points : List Point) (epsilon : ℚ := CURVE_POINT_EPSILON) :
    List Point :=
  let result := (points.foldl (pruneStep epsilon) []).reverse
  if 2 ≤ result.length then result else points.take 2

/-- Consecutive points are all farther apart than epsilon. This is the
side condition under which one prune pass is provably the identity; it is
stated over the code's farApart test. -/
def gapsOK (epsilon : ℚ) : List Point → Bool
  | [] => true
  | [_] => true
  | p :: q :: rest => farApart p q epsilon && gapsOK epsilon (q :: rest)

/-- A well-formed persisted element in the sense of the round-trip
property: players, balls and straight arrows always are (their
coordinates are finite numbers by construction here), and a curve must
have at least two points that one prune pass at the default epsilon
leaves unchanged. -/
def wellFormedEl : El → Bool
  | .arrowCurve c =>
    decide (2 ≤ c.points.length) && decide (prunePoints c.points = c.points)
  | _ => true

/-- Source function sampleCubicPoints: the cubic Bernstein polynomial
evaluated at segments+1 uniformly spaced parameters, endpoints included. -/
def sampleCubicPoints (start control1 control2 endp : Point)
    (segments : ℕ := 24) : List Point :=
  (List.range (segments + 1)).map fun i =>
    let t : ℚ := (i : ℚ) / (segments : ℚ)
    let mt := 1 - t
    let mt2 := mt * mt
    let t2 := t * t
    { x := mt2 * mt * start.x + 3 * mt2 * t * control1.x +
        3 * mt * t2 * control2.x + t2 * t * endp.x,
      y := mt2 * mt * start.y + 3 * mt2 * t * control1.y +
        3 * mt * t2 * control2.y + t2 * t * endp.y }

/-- Source function worldFromPointer on the non-null pointer path: the
screen-to-world transform world = (screen - viewport/2 - offset) / scale. -/
def screenToWorld (p : Point) (camera : Camera) (vp : Viewport) : Point :=
  { x := (p.x - vp.w / 2 - camera.x) / camera.scale,
    y := (p.y - vp.h / 2 - camera.y) / camera.scale }

/-- The world-to-screen transform realized by the render layer: the world
group is placed at viewport/2 + offset and scaled by camera.scale, so a
world point w appears at viewport/2 + offset + w * scale. -/
def worldToScreen (w : Point) (camera : Camera) (vp : Viewport) : Point :=
  { x := vp.w / 2 + camera.x + w.x * camera.scale,
    y := vp.h / 2 + camera.y + w.y * camera.scale }

/-- Source function cameraZoomTo (the spec's zoomAround): recompute the
offset so that the world point under the anchor keeps its screen position
at the new scale. -/
def cameraZoomTo (camera : Camera) (anchorScreen : Point) (newScale : ℚ)
    (vp : Viewport) : Camera :=
  let worldX := (anchorScreen.x - vp.w / 2 - camera.x) / camera.scale
  let worldY := (anchorScreen.y - vp.h / 2 - camera.y) / camera.scale
  { scale := newScale,
    x := anchorScreen.x - vp.w / 2 - worldX * newScale,
    y := anchorScreen.y - vp.h / 2 - worldY * newScale }

/-!
Untrusted import values. A JS value sitting in a numeric field position is
abstracted by how the program can observe it: whether typeof v is number,
and what Number(v) coerces it to. Finite doubles are modelled exactly by
rationals.
-/

/-- A raw field value in a numeric position. The num, nan, inf and ninf
constructors are number-typed JS values (finite, NaN, Infinity and
-Infinity); strNum and strBad are values of other types that Number
coerces to the given finite number respectively to NaN. A missing or
undefined field is modelled by strBad (Number of undefined is NaN and
typeof undefined is not number). -/
inductive RawNum
  | num (q : ℚ)
  | nan
  | inf
  | ninf
  | strNum (q : ℚ)
  | strBad
  deriving DecidableEq

/-- The result of the JS Number coercion: a finite number, an infinity, or
NaN. -/
inductive CoNum
  | fin (q : ℚ)
  | pinf
  | ninf
  | nanv
  deriving DecidableEq

/-- Number(v) on a raw field value. -/
def jsNumber : RawNum → CoNum
  | .num q => .fin q
  | .nan => .nanv
  | .inf => .pinf
  | .ninf => .ninf
  | .strNum q => .fin q
  | .strBad => .nanv

/-- Number(v) on a possibly absent field: Number(undefined) is NaN. -/
def jsNumberOpt : Option RawNum → CoNum
  | none => .nanv
  | some v => jsNumber v

/-- The source pattern Number(v) || 0, which turns NaN (falsy) into 0 and
keeps infinities (truthy). A finite 0 stays 0. -/
def numOrZero (v : RawNum) : CoNum :=
  match jsNumber v with
  | .nanv => .fin 0
  | w => w

/-- Number.isFinite on a coerced value. -/
def CoNum.isFin : CoNum → Bool
  | .fin _ => true
  | _ => false

/-- The rational payload of a coerced value, read only after an isFin
check. -/
def CoNum.val : CoNum → ℚ
  | .fin q => q
  | _ => 0

/-- A raw entry of a points array. The source only reads p?.x and p?.y,
so an entry is modelled by those two field positions; a null entry or a
missing coordinate is a strBad field. -/
structure RawPoint where
  x : RawNum
  y : RawNum
  deriving DecidableEq

/-- A raw JS object in the elements array, modelled as a record of every
field this program ever reads or writes on an element. Absent fields are
none; dashed stores the truthiness of el.dashed (the program only ever
applies Boolean to it); kind, id and color are string-or-absent, as the
comparisons and fallbacks in the source only distinguish that much. -/
structure RawObj where
  kind : Option String
  id : Option String
  x : Option RawNum
  y : Option RawNum
  x1 : Option RawNum
  y1 : Option RawNum
  x2 : Option RawNum
  y2 : Option RawNum
  cx1 : Option RawNum
  cy1 : Option RawNum
  cx2 : Option RawNum
  cy2 : Option RawNum
  points : Option (List RawPoint)
  color : Option String
  dashed : Bool
  avatar : Option String
  name : Option String
  deriving DecidableEq

/-- The all-absent raw object. -/
def emptyRaw : RawObj :=
  { kind := none, id := none, x := none, y := none,
    x1 := none, y1 := none, x2 := none, y2 := none,
    cx1 := none, cy1 := none, cx2 := none, cy2 := none,
    points := none, color := none, dashed := false,
    avatar := none, name := none }

/-- A raw entry of the imported elements array: either a null or
non-object value (dropped by the guard at the top of the map callback), or
an object. -/
inductive RawEl
  | nonObject
  | obj (o : RawObj)
  deriving DecidableEq

/-- An entry of the live element sequence as a JS value: either a proper
element built by this program, or a raw object passed through unchanged by
the import normalizer (unknown kind discriminator). -/
inductive NEl
  | el (e : El)
  | raw (o : RawObj)
  deriving DecidableEq

/-- The id field of a live entry, as the mutators read it with e.id. -/
def NEl.elId : NEl → Option String
  | .el e => some e.eid
  | .raw o => o.id

/-- The JSON string for a team color. -/
def teamColorStr : TeamColor → String
  | .red => "red"
  | .blue => "blue"

/-- The JSON string for an arrow color. -/
def arrowColorStr : ArrowColor → String
  | .redLine => "redLine"
  | .blueLine => "blueLine"
  | .yellow => "yellow"

/-- The raw object produced by JSON.parse(JSON.stringify(el)) for a proper
element: the JSON round trip is the identity on records of finite numbers,
strings and booleans, and stringify drops undefined optional fields. This
is the serialize-then-parse boundary of the export/import dialogs. -/
def elToRaw : El → RawObj
  | .player p =>
    { emptyRaw with
      kind := some "player", id := some p.id,
      x := some (.num p.x), y := some (.num p.y),
      color := some (teamColorStr p.color),
      avatar := p.avatar, name := p.name }
  | .ball b =>
    { emptyRaw with
      kind := some "ball", id := some b.id,
      x := some (.num b.x), y := some (.num b.y) }
  | .arrowStraight a =>
    { emptyRaw with
      kind := some "arrow-straight", id := some a.id,
      x1 := some (.num a.x1), y1 := some (.num a.y1),
      x2 := some (.num a.x2), y2 := some (.num a.y2),
      color := some (arrowColorStr a.color), dashed := a.dashed }
  | .arrowCurve c =>
    { emptyRaw with
      kind := some "arrow-curve", id := some c.id,
      points := some (c.points.map fun p => ⟨.num p.x, .num p.y⟩),
      color := some (arrowColorStr c.color), dashed := c.dashed }

/-- A live entry viewed as the JS value tree it denotes, used to state
deep equality between normalizer output and cloned originals. -/
def nelToRaw : NEl → RawObj
  | .el e => elToRaw e
  | .raw o => o

/-- Source function normalizeArrowColor: canonicalize a color value, with
legacy aliases red and blue, and blueLine as the default for anything
unrecognized. -/
def normalizeArrowColor (color : Option String) : ArrowColor :=
  if color = some "redLine" ∨ color = some "red" then .redLine
  else if color = some "blueLine" ∨ color = some "blue" then .blueLine
  else if color = some "yellow" then .yellow
  else .blueLine

/-- The coercion pipeline of the explicit-points curve branch: map every
entry through Number(coordinate) || 0, keep only entries whose two
coordinates are finite, and read off the rational points. -/
def coercePoints (pts : List RawPoint) : List Point :=
  ((pts.map fun p => (numOrZero p.x, numOrZero p.y)).filter
      fun c => c.1.isFin && c.2.isFin).map
    fun c => ⟨c.1.val, c.2.val⟩

/-- The legacy 4-point cubic description branch of the curve normalizer:
all eight control fields must be number-typed, then the cubic is sampled
and pruned. Number-typed non-finite fields would let the source build a
curve of non-finite points; coordinates here are rationals, modelling
exactly the finite doubles, so the branch is entered on finite
number-typed fields. -/
def curveLegacy (fresh : String) (o : RawObj) : Option NEl :=
  match o.x1, o.y1, o.x2, o.y2, o.cx1, o.cy1, o.cx2, o.cy2 with
  | some (.num x1), some (.num y1), some (.num x2), some (.num y2),
    some (.num cx1), some (.num cy1), some (.num cx2), some (.num cy2) =>
    let points := prunePoints
      (sampleCubicPoints ⟨x1, y1⟩ ⟨cx1, cy1⟩ ⟨cx2, cy2⟩ ⟨x2, y2⟩)
    some (.el (.arrowCurve
      { id := o.id.getD fresh, points := points,
        color := normalizeArrowColor o.color, dashed := o.dashed }))
  | _, _, _, _, _, _, _, _ => none

/-- One iteration of the map callback inside normalizeImportedElements:
null and non-object entries map to null; an arrow-curve kind is rebuilt
from an explicit point list of length at least 2 (coerce, filter
non-finite, prune, require at least 2 survivors) or from a legacy cubic
description, else dropped; an arrow-straight kind requires four finite
coordinates, else dropped; any other kind is passed through unchanged.
The uuidv4() fallback for a missing id is modelled by the injected fresh
string; no claim depends on distinctness of generated ids. -/
def normalizeOne (fresh : String) : RawEl → Option NEl
  | .nonObject => none
  | .obj o =>
    if o.kind = some "arrow-curve" then
      match o.points with
      | some pts =>
        if 2 ≤ pts.length then
          let points := prunePoints (coercePoints pts)
          if points.length < 2 then none
          else
            some (.el (.arrowCurve
              { id := o.id.getD fresh, points := points,
                color := normalizeArrowColor o.color, dashed := o.dashed }))
        else curveLegacy fresh o
      | none => curveLegacy fresh o
    else if o.kind = some "arrow-straight" then
      match jsNumberOpt o.x1, jsNumberOpt o.y1,
          jsNumberOpt o.x2, jsNumberOpt o.y2 with
      | .fin x1, .fin y1, .fin x2, .fin y2 =>
        some (.el (.arrowStraight
          { id := o.id.getD fresh, x1 := x1, y1 := y1, x2 := x2, y2 := y2,
            color := normalizeArrowColor o.color, dashed := o.dashed }))
      | _, _, _, _ => none
    else some (.raw o)

/-- Source function cloneElements, applied to the live sequence and to
normalizer output: every element is shallow-copied and curve point arrays
are copied point by point. Shallow copies and point copies are the
identity on immutable values; raw pass-through objects never carry the
arrow-curve kind (the normalizer rebuilds that kind), so only the shallow
copy applies to them. -/
def cloneNEl : NEl → NEl
  | .el (.arrowCurve c) =>
    .el (.arrowCurve { c with points := c.points.map fun p => ⟨p.x, p.y⟩ })
  | .el e => .el e
  | .raw o => .raw o

/-- cloneElements over a whole sequence. -/
def cloneElements (elements : List NEl) : List NEl :=
  elements.map cloneNEl

/-- Source function normalizeImportedElements: map the callback over the
raw array, filter out the nulls, and clone the result. -/
def normalizeImportedElements (fresh : String) (raw : List RawEl) :
    List NEl :=
  cloneElements ((raw.map (normalizeOne fresh)).filterMap id)

/-!
Document state. The elements state cell, the history ref, the selection
and the camera are gathered into one record that the event handlers
transform. The isUndoing ref only suppresses history recording inside the
setElements call issued by undo itself; no updater runs during that call,
so undo is modelled directly and the mutators record unconditionally. The
reference-inequality guard next !== prev in applyElementsUpdate is always
true at every call site, because every updater there builds a fresh array
with map, filter or concat; it is therefore modelled as an unconditional
record as well.
-/

/-- The mutable state of one editing session. -/
structure DocState where
  elements : List NEl
  history : List (List NEl)
  selectedId : Option String
  camera : Camera
  deriving DecidableEq

/-- Source function pushHistory: clone the snapshot, push it, and shift
the oldest entry off the front when the stack exceeds HISTORY_LIMIT. -/
def pushHistory (snapshot : List NEl) (history : List (List NEl)) :
    List (List NEl) :=
  let pushed := history ++ [cloneElements snapshot]
  if HISTORY_LIMIT < pushed.length then pushed.tail else pushed

/-- Source function applyElementsUpdate: record the prior elements, then
apply the updater. -/
def applyElementsUpdate (updater : List NEl → List NEl) (st : DocState) :
    DocState :=
  { st with
    elements := updater st.elements,
    history := pushHistory st.elements st.history }

/-- Source function replaceElements: record the prior elements, install a
deep clone of the replacement, and clear the selection. -/
def replaceElements (next : List NEl) (st : DocState) : DocState :=
  { st with
    elements := cloneElements next,
    history := pushHistory st.elements st.history,
    selectedId := none }

/-- Source function undo: pop the most recent snapshot and restore a deep
clone of it as the live sequence; a no-op when the stack is empty. The pop
reads the last pushed entry (LIFO). -/
def undo (st : DocState) : DocState :=
  match st.history.getLast? with
  | none => st
  | some snapshot =>
    { st with
      elements := cloneElements snapshot,
      history := st.history.dropLast }

/-- The updater body of movePlayer and moveBall: the spread with fresh x
and y. On a player or ball it replaces the position; on an arrow with a
colliding id the spread would add x and y properties nothing ever reads,
modelled as the identity; on a raw pass-through object it stores the two
numbers. -/
def setPosXY (x y : ℚ) : NEl → NEl
  | .el (.player p) => .el (.player { p with x := x, y := y })
  | .el (.ball b) => .el (.ball { b with x := x, y := y })
  | .el e => .el e
  | .raw o => .raw { o with x := some (.num x), y := some (.num y) }

/-- JS addition of a delta to a raw numeric field, as in the moveStraight
spread applied to a non-straight value with a colliding id: a finite
number shifts, infinities absorb, anything else (undefined, NaN, strings)
is collapsed to NaN. Such collisions are unreachable for documents built
by this program, whose raw entries never carry the arrow kinds. -/
def rawShift (v : Option RawNum) (d : ℚ) : RawNum :=
  match v with
  | some (.num q) => .num (q + d)
  | some .inf => .inf
  | some .ninf => .ninf
  | _ => .nan

/-- The updater body of moveStraight: translate all four endpoint
coordinates by the drag delta. -/
def shiftStraight (dx dy : ℚ) : NEl → NEl
  | .el (.arrowStraight a) =>
    .el (.arrowStraight
      { a with
        x1 := a.x1 + dx, y1 := a.y1 + dy,
        x2 := a.x2 + dx, y2 := a.y2 + dy })
  | .el e => .el e
  | .raw o =>
    .raw { o with
           x1 := some (rawShift o.x1 dx), y1 := some (rawShift o.y1 dy),
           x2 := some (rawShift o.x2 dx), y2 := some (rawShift o.y2 dy) }

/-- The updater body of moveCurve: translate every point by the drag
delta. A raw object with a colliding id and a points array is shifted
likewise; without one the source would throw, also unreachable. -/
def shiftCurve (dx dy : ℚ) : NEl → NEl
  | .el (.arrowCurve c) =>
    .el (.arrowCurve
      { c with points := c.points.map fun p => ⟨p.x + dx, p.y + dy⟩ })
  | .el e => .el e
  | .raw o =>
    match o.points with
    | some ps =>
      .raw { o with
             points := some (ps.map fun p =>
               ⟨rawShift (some p.x) dx, rawShift (some p.y) dy⟩) }
    | none => .raw o

/-- A property patch passed to updateElement by the context menu: a JS
object holding some of the color, avatar, name and dashed keys. The call
sites never patch an id. -/
structure ElPatch where
  color : Option String
  avatar : Option String
  name : Option String
  dashed : Option Bool
  deriving DecidableEq

/-- The spread merge of updateElement on one element. Typed elements take
the keys their kind carries (the context menu only offers team colors on
players and arrow colors on arrows; an unrecognized color string on a
typed element is unreachable from the call sites and keeps the prior
value, and keys a kind lacks would only add properties nothing reads);
raw objects take all supplied keys. The id is never touched. -/
def applyPatch (patch : ElPatch) : NEl → NEl
  | .el (.player p) =>
    .el (.player
      { p with
        color :=
          if patch.color = some "red" then .red
          else if patch.color = some "blue" then .blue
          else p.color,
        avatar := patch.avatar.rec p.avatar (fun a => some a),
        name := patch.name.rec p.name (fun n => some n) })
  | .el (.ball b) => .el (.ball b)
  | .el (.arrowStraight a) =>
    .el (.arrowStraight
      { a with
        color :=
          if patch.color = some "redLine" then .redLine
          else if patch.color = some "blueLine" then .blueLine
          else if patch.color = some "yellow" then .yellow
          else a.color,
        dashed := patch.dashed.getD a.dashed })
  | .el (.arrowCurve c) =>
    .el (.arrowCurve
      { c with
        color :=
          if patch.color = some "redLine" then .redLine
          else if patch.color = some "blueLine" then .blueLine
          else if patch.color = some "yellow" then .yellow
          else c.color,
        dashed := patch.dashed.getD c.dashed })
  | .raw o =>
    .raw { o with
           color := patch.color.rec o.color (fun c => some c),
           avatar := patch.avatar.rec o.avatar (fun a => some a),
           name := patch.name.rec o.name (fun n => some n),
           dashed := patch.dashed.getD o.dashed }

/-- One document-mutating operation, as the source wires them: the four
id-targeted move handlers, element creation (spawnAt and the two gesture
commits, which concat one new element), the context-menu patch, deletion,
and the full replace used by import. -/
inductive MutOp
  | movePlayer (targetId : String) (x y : ℚ)
  | moveBall (targetId : String) (x y : ℚ)
  | moveStraight (targetId : String) (dx dy : ℚ)
  | moveCurve (targetId : String) (dx dy : ℚ)
  | create (e : El)
  | update (targetId : String) (patch : ElPatch)
  | delete (targetId : String)
  | replaceAll (next : List NEl)

/-- Apply one mutating operation to the document state. Each id-targeted
op maps the source's ternary over the sequence; delete also heals the
selection first, exactly as deleteElement does. -/
def applyOp : MutOp → DocState → DocState
  | .movePlayer targetId x y, st =>
    applyElementsUpdate
      (fun els => els.map fun e =>
        if e.elId = some targetId then setPosXY x y e else e) st
  | .moveBall targetId x y, st =>
    applyElementsUpdate
      (fun els => els.map fun e =>
        if e.elId = some targetId then setPosXY x y e else e) st
  | .moveStraight targetId dx dy, st =>
    applyElementsUpdate
      (fun els => els.map fun e =>
        if e.elId = some targetId then shiftStraight dx dy e else e) st
  | .moveCurve targetId dx dy, st =>
    applyElementsUpdate
      (fun els => els.map fun e =>
        if e.elId = some targetId then shiftCurve dx dy e else e) st
  | .create e, st =>
    applyElementsUpdate (fun els => els ++ [.el e]) st
  | .update targetId patch, st =>
    applyElementsUpdate
      (fun els => els.map fun e =>
        if e.elId = some targetId then applyPatch patch e else e) st
  | .delete targetId, st =>
    applyElementsUpdate
      (fun els => els.filter fun e => e.elId != some targetId)
      { st with
        selectedId :=
          if st.selectedId = some targetId then none else st.selectedId }
  | .replaceAll next, st => replaceElements next st

/-- A user action touching the document: a mutation or an undo. -/
inductive Action
  | mutate (op : MutOp)
  | undoA

/-- Apply one action. -/
def applyAction (st : DocState) : Action → DocState
  | .mutate op => applyOp op st
  | .undoA => undo st

/-- Apply a whole interaction trace. -/
def applyActions (acts : List Action) (st : DocState) : DocState :=
  acts.foldl applyAction st

/-!
Camera handlers and the import dialog.
-/

/-- Source constant scaleBy = 1.05 in handleWheel. -/
def WHEEL_SCALE_BY : ℚ := 21 / 20

/-- The lower scale clamp 0.2. -/
def SCALE_MIN : ℚ := 1 / 5

/-- The upper scale clamp 4. -/
def SCALE_MAX : ℚ := 4

/-- Source handler handleWheel on the non-null pointer path: one
multiplicative step from the current scale (a positive deltaY zooms out),
clamped to the scale interval, recentered at the pointer. -/
def handleWheel (camera : Camera) (pointer : Point) (deltaY : ℚ)
    (vp : Viewport) : Camera :=
  let newScale := clamp
    (if 0 < deltaY then camera.scale / WHEEL_SCALE_BY
     else camera.scale * WHEEL_SCALE_BY)
    SCALE_MIN SCALE_MAX
  cameraZoomTo camera pointer newScale vp

/-- The preset scales bound to digit keys 1 to 5. -/
def scaleShortcut : Fin 5 → ℚ
  | 0 => 5 / 4
  | 1 => 3 / 2
  | 2 => 2
  | 3 => 9 / 4
  | 4 => 5 / 2

/-- The digit-key zoom handler: jump to the preset scale, recentered at
the viewport center. -/
def digitZoom (camera : Camera) (key : Fin 5) (vp : Viewport) : Camera :=
  cameraZoomTo camera ⟨vp.w / 2, vp.h / 2⟩ (scaleShortcut key) vp

/-- What the import dialog reads off a successfully parsed payload: the
elements field (absent when the payload lacks it, including payloads
whose elements key is not an array, which Array.isArray sends down the map
with whatever it holds; only array payloads are modelled) and the camera
field. A camera field of a wrong shape is not modelled; no claim touches
it. -/
structure ParsedBoard where
  elements : Option (List RawEl)
  camera : Option Camera

/-- The outcome of JSON.parse on the pasted text, supplied as an oracle:
failed covers both a parse exception and the property access throwing on a
null payload, both caught by the same catch block before any mutation. -/
inductive ParseOutcome
  | failed
  | ok (board : ParsedBoard)

/-- The import dialog Load handler: on a successful parse, normalize the
elements (defaulting to empty), replace the document, then install the
parsed camera (defaulting to offset zero at scale 1); on a failure, alert
and leave everything untouched. The returned flag is true when the
blocking notice was shown. -/
def importLoad (fresh : String) (payload : ParseOutcome) (st : DocState) :
    DocState × Bool :=
  match payload with
  | .failed => (st, true)
  | .ok board =>
    let normalized := normalizeImportedElements fresh (board.elements.getD [])
    let st1 := replaceElements normalized st
    ({ st1 with camera := board.camera.getD ⟨0, 0, 1⟩ }, false)

/-- What the normalizer turns a serialized proper element into: players
and balls carry an unrecognized kind and pass through as raw values, the
two arrow kinds are rebuilt as proper elements. -/
def normTarget (e : El) : NEl :=
  match e with
  | .player _ => .raw (elToRaw e)
  | .ball _ => .raw (elToRaw e)
  | .arrowStraight _ => .el e
  | .arrowCurve _ => .el e

/-!
Theorems. Everything below settles the stated properties of the
definitions above.
-/

theorem map_point_eta (l : List Point) :
    (l.map fun p => Point.mk p.x p.y) = l := by
  induction l with
  | nil => rfl
  | cons p tl ih => rw [List.map_cons, ih]

theorem cloneNEl_id (ne : NEl) : cloneNEl ne = ne := by
  cases ne with
  | el e =>
    cases e with
    | arrowCurve c => simp [cloneNEl, map_point_eta]
    | player p => rfl
    | ball b => rfl
    | arrowStraight a => rfl
  | raw o => rfl

theorem cloneElements_id (l : List NEl) : cloneElements l = l := by
  induction l with
  | nil => rfl
  | cons ne tl ih =>
    rw [cloneElements, List.map_cons, cloneNEl_id]
    rw [cloneElements] at ih
    rw [ih]

theorem prune_foldl_of_gapsOK (epsilon : ℚ) :
    ∀ (rest : List Point) (prev : Point) (accTl : List Point),
      gapsOK epsilon (prev :: rest) = true →
      List.foldl (pruneStep epsilon) (prev :: accTl) rest
        = rest.reverse ++ prev :: accTl := by
  intro rest
  induction rest with
  | nil => intro prev accTl _; rfl
  | cons pt rest ih =>
    intro prev accTl h
    simp only [gapsOK, Bool.and_eq_true] at h
    obtain ⟨h1, h2⟩ := h
    rw [List.foldl_cons]
    have hstep : pruneStep epsilon (prev :: accTl) pt = pt :: prev :: accTl := by
      simp [pruneStep, h1]
    rw [hstep, ih pt (prev :: accTl) h2]
    simp [List.reverse_cons, List.append_assoc]

theorem prunePoints_of_gapsOK (l : List Point) (epsilon : ℚ)
    (hlen : 2 ≤ l.length) (h : gapsOK epsilon l = true) :
    prunePoints l epsilon = l := by
  cases l with
  | nil => simp at hlen
  | cons p tl =>
    have hf : List.foldl (pruneStep epsilon) [] (p :: tl)
        = tl.reverse ++ [p] := by
      rw [List.foldl_cons]
      have hp : pruneStep epsilon [] p = [p] := rfl
      rw [hp]
      simpa using prune_foldl_of_gapsOK epsilon tl p [] h
    simp only [prunePoints, hf, List.reverse_append, List.reverse_reverse,
      List.reverse_cons, List.reverse_nil, List.nil_append,
      List.singleton_append]
    rw [if_pos hlen]

theorem prunePoints_pair (p q : Point) (epsilon : ℚ) :
    prunePoints [p, q] epsilon = [p, q] := by
  by_cases hf : farApart p q epsilon = true
  · simp [prunePoints, pruneStep, hf]
  · simp [prunePoints, pruneStep, hf]

theorem prunePoints_two_le (points : List Point) (epsilon : ℚ)
    (h : 2 ≤ points.length) : 2 ≤ (prunePoints points epsilon).length := by
  rw [prunePoints]
  split
  · next h2 => exact h2
  · next => simpa [List.length_take] using h

/-- C4: for every input point sequence of length at least 2, prunePoints
returns a sequence of length at least 2, and it falls back to the first
two raw input points exactly when the keep-or-overwrite pass leaves fewer
than 2 points. -/
theorem c4_prune_min_length (points : List Point) (epsilon : ℚ)
    (h : 2 ≤ points.length) :
    2 ≤ (prunePoints points epsilon).length ∧
    ((points.foldl (pruneStep epsilon) []).reverse.length < 2 →
      prunePoints points epsilon = points.take 2) := by
  refine ⟨prunePoints_two_le points epsilon h, ?_⟩
  intro hlt
  rw [prunePoints, if_neg]
  omega

/-- Witness for C4 at a concrete degenerate input. -/
theorem c4_prune_min_length_witness :
    2 ≤ ([⟨0, 0⟩, ⟨0, 0⟩] : List Point).length ∧
    (2 ≤ (prunePoints [⟨0, 0⟩, ⟨0, 0⟩] CURVE_POINT_EPSILON).length ∧
      ((([⟨0, 0⟩, ⟨0, 0⟩] : List Point).foldl
            (pruneStep CURVE_POINT_EPSILON) []).reverse.length < 2 →
        prunePoints [⟨0, 0⟩, ⟨0, 0⟩] CURVE_POINT_EPSILON
          = ([⟨0, 0⟩, ⟨0, 0⟩] : List Point).take 2)) :=
  ⟨by decide, c4_prune_min_length [⟨0, 0⟩, ⟨0, 0⟩] CURVE_POINT_EPSILON (by decide)⟩

unseal Rat.mul Rat.add Rat.sub Rat.inv in
/-- C3 fails as stated: pruning is not idempotent, because the
overwrite-the-last-kept-point branch can leave the last two kept points
closer than epsilon, so a second pass merges them. Concretely, one pass
over (0,0), (1,0), (2,0), (3/2,0) yields (0,0), (1,0), (3/2,0), and a
second pass yields (0,0), (3/2,0). -/
theorem c3_counterexample :
    2 ≤ ([⟨0, 0⟩, ⟨1, 0⟩, ⟨2, 0⟩, ⟨3/2, 0⟩] : List Point).length ∧
    prunePoints (prunePoints [⟨0, 0⟩, ⟨1, 0⟩, ⟨2, 0⟩, ⟨3/2, 0⟩]) ≠
      prunePoints [⟨0, 0⟩, ⟨1, 0⟩, ⟨2, 0⟩, ⟨3/2, 0⟩] := by
  constructor
  · decide
  · decide

/-- C3 (amended): prunePoints is idempotent at the fixed default epsilon
on every input of length at least 2 whose first-pass output either has
exactly 2 points or keeps all consecutive output points farther apart than
epsilon; without that proviso a second pass can differ. -/
theorem c3_prune_idempotent (P : List Point) (hlen : 2 ≤ P.length)
    (h : gapsOK CURVE_POINT_EPSILON (prunePoints P) = true ∨
      (prunePoints P).length = 2) :
    prunePoints (prunePoints P) = prunePoints P := by
  have hplen : 2 ≤ (prunePoints P).length :=
    prunePoints_two_le P CURVE_POINT_EPSILON hlen
  cases h with
  | inl hg => exact prunePoints_of_gapsOK _ _ hplen hg
  | inr h2 =>
    obtain ⟨p, q, hpq⟩ := List.length_eq_two.mp h2
    rw [hpq]
    exact prunePoints_pair p q CURVE_POINT_EPSILON

unseal Rat.mul Rat.add Rat.sub Rat.inv in
/-- Witness for the amended C3 at a concrete input. -/
theorem c3_prune_idempotent_witness :
    2 ≤ ([⟨0, 0⟩, ⟨1, 0⟩] : List Point).length ∧
    prunePoints (prunePoints [⟨0, 0⟩, ⟨1, 0⟩]) =
      prunePoints [⟨0, 0⟩, ⟨1, 0⟩] :=
  ⟨by decide,
    c3_prune_idempotent [⟨0, 0⟩, ⟨1, 0⟩] (by decide) (Or.inl (by decide))⟩

/-- C5: cameraZoomTo is anchor-invariant over exact rational arithmetic:
for every starting camera with nonzero scale, anchor, new scale and
viewport, the world point that the old camera maps to the anchor is mapped
by the returned camera to the same anchor. -/
theorem c5_zoom_anchor_invariant (camera : Camera) (anchor : Point)
    (newScale : ℚ) (vp : Viewport) (h : camera.scale ≠ 0) :
    worldToScreen (screenToWorld anchor camera vp) camera vp = anchor ∧
    worldToScreen (screenToWorld anchor camera vp)
      (cameraZoomTo camera anchor newScale vp) vp = anchor := by
  constructor
  · apply Point.ext
    · simp only [worldToScreen, screenToWorld]
      field_simp
      ring
    · simp only [worldToScreen, screenToWorld]
      field_simp
      ring
  · apply Point.ext
    · simp only [worldToScreen, screenToWorld, cameraZoomTo]
      field_simp
      ring
    · simp only [worldToScreen, screenToWorld, cameraZoomTo]
      field_simp
      ring

/-- Witness for C5 at a concrete camera, anchor, scale and viewport. -/
theorem c5_zoom_anchor_invariant_witness :
    ((⟨3, 4, 2⟩ : Camera).scale ≠ 0) ∧
    worldToScreen (screenToWorld ⟨5, 6⟩ ⟨3, 4, 2⟩ ⟨800, 600⟩) ⟨3, 4, 2⟩
      ⟨800, 600⟩ = ⟨5, 6⟩ ∧
    worldToScreen (screenToWorld ⟨5, 6⟩ ⟨3, 4, 2⟩ ⟨800, 600⟩)
      (cameraZoomTo ⟨3, 4, 2⟩ ⟨5, 6⟩ 7 ⟨800, 600⟩) ⟨800, 600⟩ = ⟨5, 6⟩ := by
  refine ⟨by norm_num, ?_, ?_⟩
  · exact (c5_zoom_anchor_invariant ⟨3, 4, 2⟩ ⟨5, 6⟩ 7 ⟨800, 600⟩
      (by norm_num)).1
  · exact (c5_zoom_anchor_invariant ⟨3, 4, 2⟩ ⟨5, 6⟩ 7 ⟨800, 600⟩
      (by norm_num)).2

theorem clamp_bounds (v a b : ℚ) (hab : a ≤ b) :
    a ≤ clamp v a b ∧ clamp v a b ≤ b :=
  ⟨le_min hab (le_max_left a v), min_le_left b _⟩

/-- C2 fails as stated: camera replacement on import installs the parsed
camera without clamping, so an imported scale of 100 survives, outside the
scale interval. -/
theorem c2_counterexample :
    (importLoad "fresh" (.ok ⟨some [], some ⟨0, 0, 100⟩⟩)
        ⟨[], [], none, ⟨0, 0, 1⟩⟩).1.camera.scale = 100 ∧
    ¬ (importLoad "fresh" (.ok ⟨some [], some ⟨0, 0, 100⟩⟩)
        ⟨[], [], none, ⟨0, 0, 1⟩⟩).1.camera.scale ≤ SCALE_MAX := by
  constructor
  · rfl
  · decide

/-- C2 (amended): wheel zoom and digit-key preset zoom always produce a
camera scale in the closed interval from 0.2 to 4; camera replacement on
import, however, adopts the parsed camera unclamped (offset zero at scale
1 when the field is absent), so only the two zoom paths keep the
invariant. -/
theorem c2_scale_clamped :
    (∀ (camera : Camera) (pointer : Point) (deltaY : ℚ) (vp : Viewport),
      SCALE_MIN ≤ (handleWheel camera pointer deltaY vp).scale ∧
      (handleWheel camera pointer deltaY vp).scale ≤ SCALE_MAX) ∧
    (∀ (camera : Camera) (key : Fin 5) (vp : Viewport),
      SCALE_MIN ≤ (digitZoom camera key vp).scale ∧
      (digitZoom camera key vp).scale ≤ SCALE_MAX) ∧
    (∀ (fresh : String) (els : Option (List RawEl)) (c : Camera)
        (st : DocState),
      (importLoad fresh (.ok ⟨els, some c⟩) st).1.camera = c) ∧
    (∀ (fresh : String) (els : Option (List RawEl)) (st : DocState),
      (importLoad fresh (.ok ⟨els, none⟩) st).1.camera = ⟨0, 0, 1⟩) := by
  refine ⟨?_, ?_, ?_, ?_⟩
  · intro camera pointer deltaY vp
    have hs : (handleWheel camera pointer deltaY vp).scale
        = clamp (if 0 < deltaY then camera.scale / WHEEL_SCALE_BY
            else camera.scale * WHEEL_SCALE_BY) SCALE_MIN SCALE_MAX := rfl
    rw [hs]
    exact clamp_bounds _ _ _ (by norm_num [SCALE_MIN, SCALE_MAX])
  · intro camera key vp
    have hs : (digitZoom camera key vp).scale = scaleShortcut key := rfl
    rw [hs]
    fin_cases key <;>
      exact ⟨by norm_num [scaleShortcut, SCALE_MIN],
        by norm_num [scaleShortcut, SCALE_MAX]⟩
  · intro fresh els c st
    rfl
  · intro fresh els st
    rfl

/-- C8: when the pasted payload fails to parse, the Load handler leaves
the whole document state (elements, history, selection, camera) untouched
and reports the blocking notice; import is atomic with respect to parse
failure. -/
theorem c8_import_atomic (fresh : String) (st : DocState) :
    importLoad fresh ParseOutcome.failed st = (st, true) := rfl

theorem pushHistory_getLast (snap : List NEl) (h : List (List NEl)) :
    (pushHistory snap h).getLast? = some snap := by
  rw [pushHistory, cloneElements_id]
  split
  · next hlt =>
    cases h with
    | nil => simp [HISTORY_LIMIT] at hlt
    | cons a t => simp [List.cons_append, List.getLast?_concat]
  · next => simp [List.getLast?_concat]

theorem applyOp_history (op : MutOp) (st : DocState) :
    (applyOp op st).history = pushHistory st.elements st.history := by
  cases op <;> rfl

theorem undo_of_getLast (st : DocState) (snap : List NEl)
    (h : st.history.getLast? = some snap) :
    undo st = { st with
                elements := cloneElements snap,
                history := st.history.dropLast } := by
  simp only [undo, h]

/-- C6: after any single mutating operation (move, create, delete, patch,
full replace), undo restores the element sequence that was live
immediately before the operation, and undo on an empty history changes
nothing. -/
theorem c6_undo_restores :
    (∀ (op : MutOp) (st : DocState),
      (undo (applyOp op st)).elements = st.elements) ∧
    (∀ st : DocState, st.history = [] → undo st = st) := by
  constructor
  · intro op st
    have h : (applyOp op st).history.getLast? = some st.elements := by
      rw [applyOp_history]
      exact pushHistory_getLast st.elements st.history
    rw [undo_of_getLast _ _ h]
    exact cloneElements_id st.elements
  · intro st h
    simp only [undo, h, List.getLast?_nil]

/-- Witness for C6 at a concrete state and operation. -/
theorem c6_undo_restores_witness :
    (undo (applyOp (MutOp.delete "x")
        ⟨[], [], none, ⟨0, 0, 1⟩⟩)).elements
      = (⟨[], [], none, ⟨0, 0, 1⟩⟩ : DocState).elements ∧
    ((⟨[], [], none, ⟨0, 0, 1⟩⟩ : DocState).history = [] ∧
      undo ⟨[], [], none, ⟨0, 0, 1⟩⟩ = ⟨[], [], none, ⟨0, 0, 1⟩⟩) :=
  ⟨c6_undo_restores.1 (MutOp.delete "x") ⟨[], [], none, ⟨0, 0, 1⟩⟩,
    rfl, c6_undo_restores.2 ⟨[], [], none, ⟨0, 0, 1⟩⟩ rfl⟩

theorem pushHistory_length_le (snap : List NEl) (h : List (List NEl))
    (hle : h.length ≤ HISTORY_LIMIT) :
    (pushHistory snap h).length ≤ HISTORY_LIMIT := by
  rw [pushHistory]
  split
  · next hlt =>
    simp only [List.length_tail, List.length_append, List.length_singleton]
    omega
  · next hge =>
    simp only [not_lt, List.length_append, List.length_singleton] at hge
    simpa only [List.length_append, List.length_singleton] using hge

theorem applyAction_history_le (st : DocState) (a : Action)
    (hle : st.history.length ≤ HISTORY_LIMIT) :
    (applyAction st a).history.length ≤ HISTORY_LIMIT := by
  cases a with
  | mutate op =>
    rw [applyAction, applyOp_history]
    exact pushHistory_length_le _ _ hle
  | undoA =>
    rw [applyAction]
    cases hg : st.history.getLast? with
    | none => simpa [undo, hg] using hle
    | some snap =>
      simp only [undo, hg, List.length_dropLast]
      omega

/-- C7: the history stack never exceeds 50 entries over any interaction
trace starting within the bound; a push at capacity evicts the oldest
entry off the front; undo pops the most recently pushed entry. -/
theorem c7_history_bounded :
    (∀ (acts : List Action) (st : DocState),
      st.history.length ≤ HISTORY_LIMIT →
      (applyActions acts st).history.length ≤ HISTORY_LIMIT) ∧
    (∀ (snap : List NEl) (h : List (List NEl)),
      h.length = HISTORY_LIMIT →
      pushHistory snap h = h.tail ++ [cloneElements snap]) ∧
    (∀ (st : DocState) (snap : List NEl),
      st.history.getLast? = some snap →
      undo st = { st with
                  elements := cloneElements snap,
                  history := st.history.dropLast }) := by
  refine ⟨?_, ?_, ?_⟩
  · intro acts
    induction acts with
    | nil => intro st h; exact h
    | cons a tl ih =>
      intro st h
      simp only [applyActions, List.foldl_cons]
      have := ih (applyAction st a) (applyAction_history_le st a h)
      simpa [applyActions] using this
  · intro snap h hlen
    rw [pushHistory, if_pos]
    · cases h with
      | nil => simp [HISTORY_LIMIT] at hlen
      | cons a t => simp [List.cons_append]
    · simp only [List.length_append, List.length_singleton, hlen]
      omega
  · intro st snap hg
    exact undo_of_getLast st snap hg

/-- Witness for C7 at concrete traces, stacks and states. -/
theorem c7_history_bounded_witness :
    ((⟨[], [], none, ⟨0, 0, 1⟩⟩ : DocState).history.length ≤ HISTORY_LIMIT ∧
      (applyActions [Action.mutate (MutOp.delete "x")]
          ⟨[], [], none, ⟨0, 0, 1⟩⟩).history.length ≤ HISTORY_LIMIT) ∧
    ((List.replicate 50 ([] : List NEl)).length = HISTORY_LIMIT ∧
      pushHistory [] (List.replicate 50 ([] : List NEl))
        = (List.replicate 50 ([] : List NEl)).tail ++ [cloneElements []]) ∧
    ((⟨[], [[]], none, ⟨0, 0, 1⟩⟩ : DocState).history.getLast? = some [] ∧
      undo ⟨[], [[]], none, ⟨0, 0, 1⟩⟩
        = ⟨cloneElements [], ([[]] : List (List NEl)).dropLast, none,
            ⟨0, 0, 1⟩⟩) :=
  ⟨⟨by decide,
      c7_history_bounded.1 [Action.mutate (MutOp.delete "x")]
        ⟨[], [], none, ⟨0, 0, 1⟩⟩ (by decide)⟩,
    ⟨by decide,
      c7_history_bounded.2.1 [] (List.replicate 50 []) (by decide)⟩,
    ⟨rfl,
      c7_history_bounded.2.2 ⟨[], [[]], none, ⟨0, 0, 1⟩⟩ [] rfl⟩⟩

theorem setPosXY_elId (x y : ℚ) (e : NEl) :
    (setPosXY x y e).elId = e.elId := by
  cases e with
  | el e0 => cases e0 <;> rfl
  | raw o => rfl

theorem shiftStraight_elId (dx dy : ℚ) (e : NEl) :
    (shiftStraight dx dy e).elId = e.elId := by
  cases e with
  | el e0 => cases e0 <;> rfl
  | raw o => rfl

theorem shiftCurve_elId (dx dy : ℚ) (e : NEl) :
    (shiftCurve dx dy e).elId = e.elId := by
  cases e with
  | el e0 => cases e0 <;> rfl
  | raw o => cases hp : o.points <;> simp [shiftCurve, hp, NEl.elId]

theorem applyPatch_elId (patch : ElPatch) (e : NEl) :
    (applyPatch patch e).elId = e.elId := by
  cases e with
  | el e0 => cases e0 <;> rfl
  | raw o => rfl

theorem filter_map_targeted (targetId : String) (f : NEl → NEl)
    (hf : ∀ e, (f e).elId = e.elId) (l : List NEl) :
    ((l.map fun e => if e.elId = some targetId then f e else e).filter
        fun e => e.elId != some targetId)
      = l.filter fun e => e.elId != some targetId := by
  induction l with
  | nil => rfl
  | cons e tl ih =>
    rw [List.map_cons, List.filter_cons, List.filter_cons]
    by_cases he : e.elId = some targetId
    · rw [if_pos he]
      simp [hf, he, ih]
    · rw [if_neg he]
      simp [bne_iff_ne, he, ih]

/-- C9: every id-targeted mutation (the four moves, patch and delete) is
framed to its target: the subsequence of elements whose id differs from
the target id is unchanged, field for field and in order. -/
theorem c9_targeted_frame :
    ∀ (st : DocState) (targetId : String),
      (∀ x y : ℚ,
        ((applyOp (.movePlayer targetId x y) st).elements.filter
            fun e => e.elId != some targetId)
          = st.elements.filter fun e => e.elId != some targetId) ∧
      (∀ x y : ℚ,
        ((applyOp (.moveBall targetId x y) st).elements.filter
            fun e => e.elId != some targetId)
          = st.elements.filter fun e => e.elId != some targetId) ∧
      (∀ dx dy : ℚ,
        ((applyOp (.moveStraight targetId dx dy) st).elements.filter
            fun e => e.elId != some targetId)
          = st.elements.filter fun e => e.elId != some targetId) ∧
      (∀ dx dy : ℚ,
        ((applyOp (.moveCurve targetId dx dy) st).elements.filter
            fun e => e.elId != some targetId)
          = st.elements.filter fun e => e.elId != some targetId) ∧
      (∀ patch : ElPatch,
        ((applyOp (.update targetId patch) st).elements.filter
            fun e => e.elId != some targetId)
          = st.elements.filter fun e => e.elId != some targetId) ∧
      (((applyOp (.delete targetId) st).elements.filter
            fun e => e.elId != some targetId)
          = st.elements.filter fun e => e.elId != some targetId) := by
  intro st targetId
  refine ⟨?_, ?_, ?_, ?_, ?_, ?_⟩
  · intro x y
    exact filter_map_targeted targetId _ (setPosXY_elId x y) st.elements
  · intro x y
    exact filter_map_targeted targetId _ (setPosXY_elId x y) st.elements
  · intro dx dy
    exact filter_map_targeted targetId _ (shiftStraight_elId dx dy) st.elements
  · intro dx dy
    exact filter_map_targeted targetId _ (shiftCurve_elId dx dy) st.elements
  · intro patch
    exact filter_map_targeted targetId _ (applyPatch_elId patch) st.elements
  · show ((st.elements.filter fun e => e.elId != some targetId).filter
        fun e => e.elId != some targetId)
      = st.elements.filter fun e => e.elId != some targetId
    rw [List.filter_filter]
    simp [Bool.and_self]

/-- C10: normalizeImportedElements drops every null or non-object entry
of any input array (the output is the same as on the input with those
entries removed), while an object entry with an unrecognized kind
discriminator passes through unchanged as an object value. -/
theorem c10_non_objects_dropped :
    (∀ (fresh : String) (raws : List RawEl),
      normalizeImportedElements fresh raws
        = normalizeImportedElements fresh
            (raws.filter fun r => r != RawEl.nonObject)) ∧
    (∀ (fresh : String) (o : RawObj),
      ¬ o.kind = some "arrow-curve" → ¬ o.kind = some "arrow-straight" →
      normalizeImportedElements fresh [RawEl.obj o] = [NEl.raw o]) := by
  constructor
  · intro fresh raws
    rw [normalizeImportedElements, normalizeImportedElements,
      cloneElements_id, cloneElements_id]
    induction raws with
    | nil => rfl
    | cons r tl ih =>
      cases r with
      | nonObject =>
        simpa [List.filter_cons, List.filterMap_cons, normalizeOne] using ih
      | obj o =>
        rw [List.filter_cons]
        have hne : (RawEl.obj o != RawEl.nonObject) = true := by
          simp [bne_iff_ne]
        rw [hne]
        simp only [if_true, List.map_cons]
        cases hx : normalizeOne fresh (RawEl.obj o) with
        | none => simpa [List.filterMap_cons, hx] using ih
        | some b => simpa [List.filterMap_cons, hx] using ih
  · intro fresh o h1 h2
    rw [normalizeImportedElements]
    simp only [normalizeOne, if_neg h1, if_neg h2, List.map_cons,
      List.map_nil, List.filterMap_cons, List.filterMap_nil]
    simp [cloneElements, cloneNEl]

/-- Witness for C10 at a concrete unknown-kind object. -/
theorem c10_non_objects_dropped_witness :
    ¬ emptyRaw.kind = some "arrow-curve" ∧
    ¬ emptyRaw.kind = some "arrow-straight" ∧
    normalizeImportedElements "w" [RawEl.obj emptyRaw]
      = [NEl.raw emptyRaw] :=
  ⟨by decide, by decide,
    c10_non_objects_dropped.2 "w" emptyRaw (by decide) (by decide)⟩

theorem normColor_roundtrip (c : ArrowColor) :
    normalizeArrowColor (some (arrowColorStr c)) = c := by
  cases c <;> decide

theorem coercePoints_encode (l : List Point) :
    coercePoints (l.map fun p => RawPoint.mk (.num p.x) (.num p.y)) = l := by
  induction l with
  | nil => rfl
  | cons p tl ih =>
    have hstep :
        coercePoints ((p :: tl).map fun q => RawPoint.mk (.num q.x) (.num q.y))
          = p :: coercePoints (tl.map fun q =>
              RawPoint.mk (.num q.x) (.num q.y)) := rfl
    rw [hstep, ih]

theorem nelToRaw_normTarget (e : El) :
    nelToRaw (normTarget e) = elToRaw e := by
  cases e <;> rfl

theorem normOne_elToRaw (fresh : String) (e : El)
    (h : wellFormedEl e = true) :
    normalizeOne fresh (RawEl.obj (elToRaw e)) = some (normTarget e) := by
  cases e with
  | player p =>
    simp [normalizeOne, elToRaw, normTarget]
  | ball b =>
    simp [normalizeOne, elToRaw, normTarget]
  | arrowStraight a =>
    simp [normalizeOne, elToRaw, normTarget, jsNumberOpt, jsNumber,
      normColor_roundtrip]
  | arrowCurve c =>
    have h2 : 2 ≤ c.points.length ∧ prunePoints c.points = c.points := by
      simpa [wellFormedEl, Bool.and_eq_true, decide_eq_true_eq] using h
    have hlen : ¬ c.points.length < 2 := by omega
    simp [normalizeOne, elToRaw, normTarget, coercePoints_encode, h2.1,
      h2.2, hlen, normColor_roundtrip]

unseal Rat.mul Rat.add Rat.sub Rat.inv in
/-- C1 fails as stated: the normalizer re-runs prunePoints on every
imported curve, and a curve that is well-formed in the claim's sense (at
least 2 points, canonical color, finite coordinates) need not be stable
under a second prune pass, so serializing and re-importing can merge its
trailing points instead of reproducing the clone. -/
theorem c1_counterexample :
    2 ≤ ([⟨0, 0⟩, ⟨1, 0⟩, ⟨3/2, 0⟩] : List Point).length ∧
    (normalizeImportedElements "f"
          ([El.arrowCurve ⟨"c", [⟨0, 0⟩, ⟨1, 0⟩, ⟨3/2, 0⟩],
              .yellow, false⟩].map
            fun e => RawEl.obj (elToRaw e))).map nelToRaw
      ≠ (cloneElements ([El.arrowCurve ⟨"c", [⟨0, 0⟩, ⟨1, 0⟩, ⟨3/2, 0⟩],
              .yellow, false⟩].map NEl.el)).map nelToRaw := by
  constructor
  · decide
  · decide

/-- C1 (amended): for every element list whose curves are additionally
stable under one prune pass at the default epsilon (at least 2 points and
prunePoints leaves them unchanged), normalizing the serialized-then-parsed
list is deep-equal, as JS value trees and in order, to a clone of the
original list; players and balls pass through as unrecognized kinds, the
arrow kinds are rebuilt identically, and present ids are preserved. -/
theorem c1_roundtrip (fresh : String) (es : List El)
    (h : ∀ e ∈ es, wellFormedEl e = true) :
    (normalizeImportedElements fresh
        (es.map fun e => RawEl.obj (elToRaw e))).map nelToRaw
      = (cloneElements (es.map NEl.el)).map nelToRaw := by
  rw [normalizeImportedElements, cloneElements_id, cloneElements_id]
  induction es with
  | nil => rfl
  | cons e tl ih =>
    have he : wellFormedEl e = true := h e (List.mem_cons_self e tl)
    have htl : ∀ x ∈ tl, wellFormedEl x = true := fun x hx =>
      h x (List.mem_cons_of_mem e hx)
    simp only [List.map_cons, List.filterMap_cons, normOne_elToRaw fresh e he,
      id_eq]
    have hh : nelToRaw (NEl.el e) = elToRaw e := rfl
    rw [nelToRaw_normTarget, hh]
    exact congrArg (elToRaw e :: .) (ih htl)

/-- Witness for the amended C1 at a concrete well-formed board. -/
theorem c1_roundtrip_witness :
    (∀ e ∈ [El.ball ⟨"b", 1, 2⟩,
        El.arrowStraight ⟨"s", 0, 0, 3, 4, .yellow, true⟩],
      wellFormedEl e = true) ∧
    (normalizeImportedElements "f"
        ([El.ball ⟨"b", 1, 2⟩,
            El.arrowStraight ⟨"s", 0, 0, 3, 4, .yellow, true⟩].map
          fun e => RawEl.obj (elToRaw e))).map nelToRaw
      = (cloneElements ([El.ball ⟨"b", 1, 2⟩,
            El.arrowStraight ⟨"s", 0, 0, 3, 4, .yellow,
              true⟩].map NEl.el)).map nelToRaw :=
  ⟨by decide,
    c1_roundtrip "f"
      [El.ball ⟨"b", 1, 2⟩,
        El.arrowStraight ⟨"s", 0, 0, 3, 4, .yellow, true⟩] (by decide)⟩

end HaxBoard
